import Mathlib

/-!
Verification of the `video-stitcher` repository (src/video_stitcher/__main__.py
and src/video_stitcher/ffmpeg.py) against its natural-language specification.

The program is orchestration glue around an external media tool: the external
world (file system, ffprobe/ffmpeg results) is modelled as explicit state and
oracles, and each repository function is embedded as a Lean function that
returns its Python return value together with the file-system state and the
list of external side effects it performs, in order.

Modelling conventions:
* A file system `FS` maps a path (a plain string) to `some mtime` when the
  file exists and `none` otherwise.  `os.path.getmtime` on a missing file
  raises, which the embedding surfaces as an exceptional result.
* ffprobe/ffmpeg outcomes are supplied by an `Env` oracle: the loudness-probe
  result of a file (`none` = the probe raised), the probed duration of a file
  already converted to integer milliseconds (`int(float(duration) * 1000)`;
  ffprobe durations are nonnegative, so a `Nat`), and the mtime of the file an
  encode/concat run leaves behind (`none` = ffmpeg failed and left no file).
* Python float values that flow through the loudness code are modelled by
  `FVal`: either negative infinity (a silent file) or a finite value as an
  exact rational.  The only operations the code performs on them are
  `min(·, 0)`, the `== "-inf"` test (after `str(min(float(x), 0))`, which
  prints `-inf` exactly for negative infinity), and substitution of the
  literals `-99` and `0`, all of which are exact.
-/

/-- File-system state: maps a path to its modification time, `none` when the
file does not exist. -/
structure FS where
  mtime : String → Option Int

/-- Functional update of the file system at one path (`none` deletes). -/
def FS.update (fs : FS) (p : String) (m : Option Int) : FS :=
  ⟨fun q => if q = p then m else fs.mtime q⟩

/-- Build a concrete file system from a path ↦ mtime association list. -/
def fsOf (l : List (String × Int)) : FS :=
  ⟨fun p => (l.find? (fun q => q.1 == p)).map Prod.snd⟩

/-- A Python float as observed by the loudness code: negative infinity or a
finite value (kept exact as a rational). -/
inductive FVal where
  | negInf
  | val (q : ℚ)
deriving DecidableEq, Repr

/-- `min(float(x), 0)` from `process_video` line 132. -/
def FVal.min0 : FVal → FVal
  | .negInf => .negInf
  | .val q => .val (min q 0)

/-! ## Embedding of src/video_stitcher/__main__.py -/

/-- One CSV row of the catalog, restricted to the columns the program reads:
`id`, `title`, `authors-names`, `session_code`, `format`, `presence`. -/
structure Row where
  id : String
  title : String
  authors : String
  session : String
  format : String
  presence : String
deriving DecidableEq, Repr

/-- `load_data` (__main__.py lines 19–26), as a function of the parsed CSV
rows (file reading and CSV parsing are external input): keeps the rows whose
`format` is `poster` and whose `presence` is `remote`, in file order. -/
def load_data (rows : List Row) : List Row :=
  rows.filter (fun row => row.format == "poster" && row.presence == "remote")

/-- `video_fileexts` (__main__.py line 15). -/
def video_fileexts : List String :=
  [".mp4", ".mkv", ".mov", ".flv", ".m4v", ".wmv"]

/-- `inputs_path` (__main__.py line 12). -/
def inputs_path : String := "videos/inputs"

/-- The loop body of `video_path` (__main__.py lines 42–49), embedded exactly
as written: both branches of the `if` inside the `for` loop `return`, so the
function returns during the first iteration and the remaining extensions are
never consulted. -/
def video_path_loop (fs : FS) (video_id : String) : List String → Option String
  | [] => none
  | ext :: _ =>
    let p := inputs_path ++ "/" ++ video_id ++ ext
    if (fs.mtime p).isSome then some p else none

/-- `video_path` (__main__.py lines 37–49). -/
def video_path (fs : FS) (video_id : String) : Option String :=
  video_path_loop fs video_id video_fileexts

/-- The path resolver as the spec describes it ("maps an item id to an
existing media file by trying a fixed list of extensions"): return the path
for the first extension in `video_fileexts` whose file exists, `none` when
none exists.  Stated from the spec's words, for comparison with `video_path`
above. -/
def video_path_spec (fs : FS) (video_id : String) : Option String :=
  (video_fileexts.map (fun ext => inputs_path ++ "/" ++ video_id ++ ext)).find?
    (fun p => (fs.mtime p).isSome)

/-- First-occurrence deduplication, used to model the Python set
`{row[session_col] for row in data}`.  Python iterates a set in an
unspecified order; the embedding fixes first-occurrence order (the claims
settled against this definition do not depend on the order chosen). -/
def uniqueKeepFirst (seen : List String) : List String → List String
  | [] => []
  | s :: rest =>
    if s ∈ seen then uniqueKeepFirst seen rest
    else s :: uniqueKeepFirst (s :: seen) rest

/-- The distinct session codes of the filtered catalog rows. -/
def sessionsOf (data : List Row) : List String :=
  uniqueKeepFirst [] (data.map Row.session)

/-- `build_video_lists` (__main__.py lines 58–69), embedded exactly as
written: the `return video_dict` statement is indented inside the
`for s in sessions` loop, so the function returns at the end of the first
iteration with a dictionary holding only that session; when there is no
session at all the loop body never runs and the function falls off the end,
returning Python `None` (modelled by `none`). -/
def build_video_lists (fs : FS) (csv_rows : List Row) :
    Option (List (String × List (String × String × String))) :=
  let data := load_data csv_rows
  match sessionsOf data with
  | [] => none
  | s :: _ =>
    let video_list :=
      (data.filter (fun e => e.session == s)).map
        (fun e => (video_path fs e.id, e.title, e.authors))
    let video_list :=
      video_list.filterMap
        (fun t =>
          match t with
          | (some path, title, authors) => some (path, title, authors)
          | (none, _, _) => none)
    some [(s, video_list)]

/-! ## Embedding of src/video_stitcher/ffmpeg.py -/

/-- The measured loudness values extracted by `loudness_probe`
(ffmpeg.py lines 31–79): the fields of the JSON block that
`process_video` later reads. -/
structure LoudnessParams where
  input_i : FVal
  input_lra : FVal
  input_tp : FVal
  input_thresh : FVal
  target_offset : FVal
deriving DecidableEq, Repr

/-- The five `loudnorm` parameters of the encode call built in
`process_video` (ffmpeg.py lines 158–161):
`measured_I`, `measured_LRA`, `measured_tp`, `measured_thresh`, `offset`. -/
structure LoudnormArgs where
  measured_I : FVal
  measured_LRA : FVal
  measured_tp : FVal
  measured_thresh : FVal
  offset : FVal
deriving DecidableEq, Repr

/-- The external side effects the program performs, in program order:
a loudness probe of a file, a per-item encode (ffmpeg.py lines 150–174,
carrying the loudnorm parameters, the escaped overlay title, the input file
and the target file), a plain file write, the concat render
(ffmpeg.py lines 246–258) and the final `os.rename`. -/
inductive Effect where
  | lprobe (input : String)
  | encode (args : LoudnormArgs) (title input output : String)
  | write (path content : String)
  | concat (inputs : List String) (metadata output : String)
  | rename (src dst : String)
deriving DecidableEq, Repr

/-- Oracle for the external world: probe results and the state ffmpeg
invocations leave behind.
* `loudness f`: result of `loudness_probe f`; `none` means the probe raised
  (e.g. the JSON trimming failed).
* `durationMs f`: `int(float(probe(f)["format"]["duration"]) * 1000)`
  (ffmpeg.py line 200); `none` means `probe` raised or the fields were
  missing.
* `encodeMtime o` / `concatMtime o`: mtime of the file an ffmpeg encode /
  concat run to target `o` leaves behind; `none` means ffmpeg failed and left
  no file (the code never checks ffmpeg's return code).
* `now`: mtime given to the metadata file written by `collate_videos`. -/
structure Env where
  loudness : String → Option LoudnessParams
  durationMs : String → Option Nat
  encodeMtime : String → Option Int
  concatMtime : String → Option Int
  now : Int

/-- Build a concrete `Env` from association lists. -/
def envOf (loud : List (String × LoudnessParams)) (dur : List (String × Nat))
    (enc : List (String × Int)) (conc : List (String × Int)) (now : Int) : Env :=
  ⟨fun p => (loud.find? (fun q => q.1 == p)).map Prod.snd,
   fun p => (dur.find? (fun q => q.1 == p)).map Prod.snd,
   fun p => (enc.find? (fun q => q.1 == p)).map Prod.snd,
   fun p => (conc.find? (fun q => q.1 == p)).map Prod.snd,
   now⟩

/-- Helper for `stem`: scan the reversed final path component; drop
everything up to and including the first `.` found (i.e. the last `.` of the
component), unless that dot is the component's leading character.  Returns
`none` when there is nothing to strip. -/
def dropExtRev : List Char → Option (List Char)
  | [] => none
  | c :: rest =>
    if c = '.' then (if rest.isEmpty then none else some rest)
    else dropExtRev rest

/-- `pathlib.Path.stem` for the paths this program builds: the final path
component (the characters after the last `/`) without its extension. -/
def stem (p : String) : String :=
  let nameRev := p.data.reverse.takeWhile (fun c => c ≠ '/')
  match dropExtRev nameRev with
  | some r => ⟨r.reverse⟩
  | none => ⟨nameRev.reverse⟩

/-- A one-character string holding a single quote (kept out of larger string
literals). -/
def squote : String := ⟨['\'']⟩

/-- A one-character string holding a backslash. -/
def bslash : String := ⟨['\\']⟩

/-- `escape_ffmpeg_text` (ffmpeg.py lines 111–113): `\` becomes `\\`,
`'` becomes `\\'` (sic) and `:` becomes `\:`. -/
def escape_ffmpeg_text (text : String) : String :=
  ((text.replace bslash (bslash ++ bslash)).replace squote
      (bslash ++ bslash ++ squote)).replace ":" (bslash ++ ":")

/-- The name of the processed copy of `input`:
`f"{input_path.stem}-processed{output_ext}"` (ffmpeg.py line 120). -/
def processedName (input output_ext : String) : String :=
  stem input ++ "-processed" ++ output_ext

/-- Result of `process_video`: the Python return value (`none` = an uncaught
exception escaped), the file system afterwards, and the effects performed. -/
structure PVResult where
  ret : Option String
  fs : FS
  effects : List Effect

/-- The fall-through part of `process_video` (ffmpeg.py lines 131–175): run
the loudness probe (an exception aborts the function, modelled by
`ret = none`), clamp `input_i` to at most `0`, replace a silent reading
(`input_i = -inf`) by the sentinels `-99`, `-99`, `0`, then run the encode
with those values as the `loudnorm` `measured_*`/`offset` parameters. -/
def process_video_encode (env : Env) (fs : FS)
    (input_path title_text output_path : String) : PVResult :=
  match env.loudness input_path with
  | none => ⟨none, fs, [.lprobe input_path]⟩
  | some lp0 =>
    let i1 := lp0.input_i.min0
    let lp :=
      if i1 = FVal.negInf then
        { lp0 with
            input_i := FVal.val (-99), input_tp := FVal.val (-99),
            target_offset := FVal.val 0 }
      else { lp0 with input_i := i1 }
    let args : LoudnormArgs :=
      ⟨lp.input_i, lp.input_lra, lp.input_tp, lp.input_thresh, lp.target_offset⟩
    ⟨some output_path, fs.update output_path (env.encodeMtime output_path),
      [.lprobe input_path,
       .encode args (escape_ffmpeg_text title_text) input_path output_path]⟩

/-- `process_video` (ffmpeg.py lines 116–175).  If the output file exists and
its mtime is at least the input's, return it without doing anything; if the
output exists but `os.path.getmtime(input_path)` raises (input file missing),
the exception escapes; otherwise probe and encode. -/
def process_video (env : Env) (fs : FS) (input_path title_text : String)
    (output_dir : String) (output_ext : String := ".mp4") : PVResult :=
  let output_path := output_dir ++ "/" ++ processedName input_path output_ext
  match fs.mtime output_path with
  | some mo =>
    match fs.mtime input_path with
    | none => ⟨none, fs, []⟩
    | some mi =>
      if mo ≥ mi then ⟨some output_path, fs, []⟩
      else process_video_encode env fs input_path title_text output_path
  | none => process_video_encode env fs input_path title_text output_path

/-- One chapter record of the metadata file built by `collate_videos`
(ffmpeg.py lines 201–207): the overlay title and the START/END ticks over the
1/1000 timebase.  `stop` embeds the source's `END` (a Lean keyword). -/
structure Chapter where
  title : String
  start : Nat
  stop : Nat
deriving DecidableEq, Repr

/-- The text `collate_videos` appends to `metadata_string` for one chapter
(ffmpeg.py lines 201–207). -/
def renderChapter (c : Chapter) : String :=
  "[CHAPTER]\nTIMEBASE=1/1000\nSTART=" ++ toString c.start ++ "\nEND=" ++
    toString c.stop ++ "\ntitle=" ++ c.title ++ "\n\n"

/-- The mutable state of the `for path, title in path_title_list` loop of
`collate_videos` (ffmpeg.py lines 185–210): the sticky local `p` (`none`
while still unbound — using it then raises `NameError`), `max_input_mtime`,
`processed`, the chapter records accumulated into `metadata_string`,
`playhead`, plus the threaded file system and effect trace. -/
structure LoopState where
  pOpt : Option String
  maxMtime : Int
  processed : List String
  chapters : List Chapter
  playhead : Nat
  fs : FS
  effects : List Effect

/-- One iteration of the `collate_videos` loop (ffmpeg.py lines 190–210).
The first `try` runs `process_video`; an exception there leaves `p` at its
previous value (Python's loop variable is sticky).  The second `try` then
uses `p`: `os.path.getmtime(p)` (raises when `p` is unbound or the file is
missing), appends `p` to `processed`, probes the original `path` for its
duration (a raise here happens after the append, so `processed` keeps the
entry while no chapter is emitted), emits the chapter record and advances
`playhead` by `ticks + 1`. -/
def collate_step (env : Env) (tmp_dir : String) (st : LoopState)
    (item : String × String) : LoopState :=
  let r := process_video env st.fs item.1 item.2 tmp_dir
  let st1 : LoopState :=
    { st with
        fs := r.fs, effects := st.effects ++ r.effects,
        pOpt := match r.ret with | some p => some p | none => st.pOpt }
  match st1.pOpt with
  | none => st1
  | some p =>
    match st1.fs.mtime p with
    | none => st1
    | some mp =>
      let st2 :=
        { st1 with
            maxMtime := max st1.maxMtime mp,
            processed := st1.processed ++ [p] }
      match env.durationMs item.1 with
      | none => st2
      | some ticks =>
        { st2 with
            chapters :=
              st2.chapters ++ [⟨item.2, st2.playhead, st2.playhead + ticks⟩],
            playhead := st2.playhead + ticks + 1 }

/-- The loop state before the first iteration (ffmpeg.py lines 185–188). -/
def collate_init (fs : FS) : LoopState :=
  ⟨none, 0, [], [], 0, fs, []⟩

/-- The whole `for path, title in path_title_list` loop of
`collate_videos`. -/
def collate_loop (env : Env) (tmp_dir : String) (fs : FS)
    (path_title_list : List (String × String)) : LoopState :=
  path_title_list.foldl (collate_step env tmp_dir) (collate_init fs)

/-- `output_path.exists() and os.path.getmtime(output_path) >= m`
(ffmpeg.py line 224); `and` short-circuits, so a missing file is simply
`False`. -/
def freshCheck (fs : FS) (path : String) (m : Int) : Bool :=
  match fs.mtime path with
  | some mo => mo ≥ m
  | none => false

/-- How a call to `collate_videos` ends: an uncaught exception
(`os.rename` on a missing temp file) or a Python return value. -/
inductive CRet where
  | raised
  | returned (r : Option String)
deriving DecidableEq, Repr

/-- Observable outcome of `collate_videos`: how the call ended, the file
system afterwards, the effect trace, and the source's `processed`,
chapter-record and `max_input_mtime` values. -/
structure CollateResult where
  result : CRet
  fs : FS
  effects : List Effect
  chapters : List Chapter
  processed : List String
  maxMtime : Int

/-- `collate_videos` (ffmpeg.py lines 178–262).  After the loop the metadata
file is always written; with nothing processed the call returns `None`;
otherwise, when the output file exists with mtime at least
`max_input_mtime` the existing path is returned, else the concat render is
run into the tmp directory and the temp file is renamed onto the final path
(`os.rename` raises when the concat run left no file). -/
def collate_videos (env : Env) (fs : FS)
    (path_title_list : List (String × String))
    (file_title tmp_dir output_dir : String)
    (output_ext : String := ".mp4") : CollateResult :=
  let metadata_file_path := tmp_dir ++ "/" ++ (file_title ++ "-metadata.ini")
  let st := collate_loop env tmp_dir fs path_title_list
  let fs1 := st.fs.update metadata_file_path (some env.now)
  let effs := st.effects ++
    [Effect.write metadata_file_path (String.join (st.chapters.map renderChapter))]
  if st.processed = [] then
    ⟨CRet.returned none, fs1, effs, st.chapters, st.processed, st.maxMtime⟩
  else
    let output_path := output_dir ++ "/" ++ (file_title ++ output_ext)
    let temp_output_path := tmp_dir ++ "/" ++ (file_title ++ output_ext)
    if freshCheck fs1 output_path st.maxMtime then
      ⟨CRet.returned (some output_path), fs1, effs, st.chapters, st.processed,
        st.maxMtime⟩
    else
      let effs2 := effs ++
        [Effect.concat st.processed metadata_file_path temp_output_path]
      match env.concatMtime temp_output_path with
      | none =>
        ⟨CRet.raised, fs1.update temp_output_path none, effs2, st.chapters,
          st.processed, st.maxMtime⟩
      | some mt =>
        ⟨CRet.returned (some output_path),
          ((fs1.update temp_output_path (some mt)).update output_path
              (some mt)).update temp_output_path none,
          effs2 ++ [Effect.rename temp_output_path output_path],
          st.chapters, st.processed, st.maxMtime⟩

/-! ## Helper predicates used by the theorems -/

/-- Does this effect run the concat render? -/
def isConcatEffect : Effect → Bool
  | .concat .. => true
  | _ => false

/-- Does this effect perform the final rename? -/
def isRenameEffect : Effect → Bool
  | .rename .. => true
  | _ => false

/-- The path (if any) at which this effect creates or replaces a file. -/
def effectCreates : Effect → Option String
  | .lprobe _ => none
  | .encode _ _ _ o => some o
  | .write p _ => some p
  | .concat _ _ o => some o
  | .rename _ d => some d

/-- The chapter list forms a chain starting at tick `t`: each record starts
exactly where expected, ends no earlier than it starts, and the next record
starts one tick after this one ends. -/
def chainFrom : Nat → List Chapter → Prop
  | _, [] => True
  | t, ch :: rest => ch.start = t ∧ ch.start ≤ ch.stop ∧ chainFrom (ch.stop + 1) rest

/-- The tick at which a chain continues after these chapters. -/
def chainEnd : Nat → List Chapter → Nat
  | t, [] => t
  | _, ch :: rest => chainEnd (ch.stop + 1) rest

/-- Effects that can appear in the `collate_videos` loop trace: loudness
probes, and encodes whose target lies in the tmp directory. -/
def loopEffect (tmp_dir : String) (e : Effect) : Prop :=
  (∃ i, e = Effect.lprobe i) ∨
    (∃ a t i s, e = Effect.encode a t i (tmp_dir ++ "/" ++ s))

/-! ## Concrete scenarios used by counterexamples and witnesses -/

/-- A file system holding only `videos/inputs/p1.mkv`: the id `p1` has a
video, but not with the first extension in `video_fileexts`. -/
def fsC1 : FS := fsOf [("videos/inputs/p1.mkv", 10)]

/-- Two filtered catalog rows in two distinct sessions, both with existing
`.mp4` videos. -/
def rowsC2 : List Row :=
  [⟨"a1", "T1", "AU1", "A", "poster", "remote"⟩,
   ⟨"b1", "T2", "AU2", "B", "poster", "remote"⟩]

/-- File system for the `rowsC2` scenario. -/
def fsC2 : FS := fsOf [("videos/inputs/a1.mp4", 1), ("videos/inputs/b1.mp4", 1)]

/-- Scenario for the collate freshness check: one input whose processed copy
(mtime 5) is newer than the input (mtime 3), and whose group output exists
with mtime exactly 5 — equal to, not newer than, the latest processed
mtime. -/
def fsC3 : FS :=
  fsOf [("videos/inputs/v.mp4", 3), ("videos/tmp/v-processed.mp4", 5),
        ("videos/output/video_S.mp4", 5)]

/-- Oracle for the `fsC3` scenario: the input's duration is 1000 ms; no
ffmpeg run is expected to happen. -/
def envC3 : Env := envOf [] [("videos/inputs/v.mp4", 1000)] [] [] 6

/-- The single-item list for the `fsC3` scenario. -/
def itemsC3 : List (String × String) := [("videos/inputs/v.mp4", "T")]

/-- A probe result for a silent file: measured `input_i` is `-inf`, while the
measured `target_offset` (7) and `input_tp` (2) are finite. -/
def lpC6 : LoudnessParams :=
  ⟨FVal.negInf, FVal.val 11, FVal.val 2, FVal.val (-30), FVal.val 7⟩

/-- Oracle for the silent-file scenario on `videos/inputs/s.mp4`. -/
def envC6 : Env :=
  envOf [("videos/inputs/s.mp4", lpC6)] [("videos/inputs/s.mp4", 2000)]
    [("videos/tmp/s-processed.mp4", 9)] [] 6

/-- File system for the silent-file scenario: only the input exists, so
`process_video` cannot skip. -/
def fsC6 : FS := fsOf [("videos/inputs/s.mp4", 4)]

/-- The loudnorm arguments `process_video` builds for `lpC6`: the sentinel
values replace `input_i`, `input_tp` and `target_offset`. -/
def argsC6 : LoudnormArgs :=
  ⟨FVal.val (-99), FVal.val 11, FVal.val (-99), FVal.val (-30), FVal.val 0⟩

/-- Scenario in which `collate_videos` must render: the processed copy of the
input exists and is fresh (so the item is handled without an encode), but the
group output file is missing. -/
def fsC10 : FS :=
  fsOf [("videos/inputs/v.mp4", 3), ("videos/tmp/v-processed.mp4", 5)]

/-- Oracle for the `fsC10` scenario: the concat render succeeds and leaves a
temp file with mtime 7. -/
def envC10 : Env :=
  envOf [] [("videos/inputs/v.mp4", 1000)] [] [("videos/tmp/video_S.mp4", 7)] 6

/-! ## Helper lemmas about process_video -/

theorem process_video_encode_args (env : Env) (fs : FS) (i t o : String)
    (lp : LoudnessParams) (hlp : env.loudness i = some lp) :
    process_video_encode env fs i t o
      = ⟨some o, fs.update o (env.encodeMtime o),
         [Effect.lprobe i,
          Effect.encode
            (if lp.input_i.min0 = FVal.negInf then
              ⟨FVal.val (-99), lp.input_lra, FVal.val (-99), lp.input_thresh,
               FVal.val 0⟩
             else
              ⟨lp.input_i.min0, lp.input_lra, lp.input_tp, lp.input_thresh,
               lp.target_offset⟩)
            (escape_ffmpeg_text t) i o]⟩ := by
  by_cases h : lp.input_i.min0 = FVal.negInf <;>
    simp [process_video_encode, hlp, h]

theorem process_video_encode_fail (env : Env) (fs : FS) (i t o : String)
    (hlp : env.loudness i = none) :
    process_video_encode env fs i t o = ⟨none, fs, [Effect.lprobe i]⟩ := by
  simp [process_video_encode, hlp]

/-! ## Claim theorems -/

/-- C1: the claim says `video_path` tries each extension of `video_fileexts`
in turn and returns `None` only when no extension matches.  The code returns
inside the first loop iteration in both branches, so only `.mp4` is ever
tried: for an id whose video exists as `.mkv` (and not `.mp4`), the file
`videos/inputs/p1.mkv` exists, the resolver the spec describes returns it,
yet `video_path` returns `None`. -/
theorem C1_video_path_code_eval :
    (fsC1.mtime "videos/inputs/p1.mkv").isSome = true
    ∧ video_path fsC1 "p1" = none
    ∧ video_path_spec fsC1 "p1" = some "videos/inputs/p1.mkv" := by
  exact ⟨by decide, by decide, by decide⟩

/-- C2: the claim says `build_video_lists` returns one key per distinct
session code.  The `return video_dict` statement sits inside the
`for s in sessions` loop, so for a catalog whose filtered rows span the two
sessions `A` and `B` (both with resolvable `.mp4` videos) the returned
dictionary holds the single key `A`. -/
theorem C2_build_video_lists_code_eval :
    sessionsOf (load_data rowsC2) = ["A", "B"]
    ∧ build_video_lists fsC2 rowsC2
        = some [("A", [("videos/inputs/a1.mp4", "T1", "AU1")])] := by
  exact ⟨by decide, by decide⟩

/-- C8: `load_data` returns exactly the CSV rows whose `format` field is
`poster` and whose `presence` field is `remote`, in file order (it is a
sublist of the input rows), and no other rows. -/
theorem C8_load_data_filter (rows : List Row) :
    (load_data rows).Sublist rows
    ∧ ∀ r : Row, r ∈ load_data rows ↔
        (r ∈ rows ∧ r.format = "poster" ∧ r.presence = "remote") := by
  constructor
  · exact List.filter_sublist rows
  · intro r
    simp [load_data, List.mem_filter, and_assoc]

/-- Witness for C8 at a concrete catalog: the first row of `rowsC2` passes
the filter. -/
theorem C8_load_data_filter_witness :
    (⟨"a1", "T1", "AU1", "A", "poster", "remote"⟩ : Row) ∈ load_data rowsC2 := by
  exact ((C8_load_data_filter rowsC2).2 _).mpr ⟨by decide, by decide, by decide⟩

/-- C4: `process_video` skips all work (returns the existing output path
with no probe and no encode) exactly when the processed output exists with a
modification time at least that of the input; otherwise its first action is
the loudness probe, and when the probe succeeds the only further action is
the single encode call. -/
theorem C4_process_video_skip (env : Env) (fs : FS)
    (input title output_dir : String) (mi : Int)
    (hin : fs.mtime input = some mi) :
    (((process_video env fs input title output_dir).ret
        = some (output_dir ++ "/" ++ processedName input ".mp4")
      ∧ (process_video env fs input title output_dir).effects = [])
      ↔ (∃ mo, fs.mtime (output_dir ++ "/" ++ processedName input ".mp4")
            = some mo ∧ mi ≤ mo))
    ∧ ((∀ mo, fs.mtime (output_dir ++ "/" ++ processedName input ".mp4")
          = some mo → mo < mi) →
        (process_video env fs input title output_dir).effects.head?
          = some (Effect.lprobe input)
        ∧ ∀ lp, env.loudness input = some lp →
            ∃ a, (process_video env fs input title output_dir).effects
                = [Effect.lprobe input,
                   Effect.encode a (escape_ffmpeg_text title) input
                     (output_dir ++ "/" ++ processedName input ".mp4")]
              ∧ (process_video env fs input title output_dir).ret
                = some (output_dir ++ "/" ++ processedName input ".mp4")) := by
  cases ho : fs.mtime (output_dir ++ "/" ++ processedName input ".mp4") with
  | none =>
    have hpv : process_video env fs input title output_dir
        = process_video_encode env fs input title
            (output_dir ++ "/" ++ processedName input ".mp4") := by
      simp [process_video, ho]
    constructor
    · rw [hpv]
      constructor
      · intro h
        cases hl : env.loudness input with
        | none => rw [process_video_encode_fail env fs _ _ _ hl] at h; cases h.2
        | some lp => rw [process_video_encode_args env fs _ _ _ lp hl] at h; cases h.2
      · rintro ⟨mo, hmo, _⟩; exact Option.noConfusion hmo
    · intro _
      rw [hpv]
      constructor
      · cases hl : env.loudness input with
        | none => rw [process_video_encode_fail env fs _ _ _ hl]; rfl
        | some lp => rw [process_video_encode_args env fs _ _ _ lp hl]; rfl
      · intro lp hl
        rw [process_video_encode_args env fs _ _ _ lp hl]
        exact ⟨_, rfl, rfl⟩
  | some mo =>
    by_cases hge : mo ≥ mi
    · have hpv : process_video env fs input title output_dir
          = ⟨some (output_dir ++ "/" ++ processedName input ".mp4"), fs, []⟩ := by
        simp [process_video, ho, hin, hge]
      constructor
      · rw [hpv]
        exact ⟨fun _ => ⟨mo, rfl, hge⟩, fun _ => ⟨rfl, rfl⟩⟩
      · intro hlt
        exact absurd hge (not_le.mpr (hlt mo rfl))
    · have hpv : process_video env fs input title output_dir
          = process_video_encode env fs input title
              (output_dir ++ "/" ++ processedName input ".mp4") := by
        simp [process_video, ho, hin, hge]
      constructor
      · rw [hpv]
        constructor
        · intro h
          cases hl : env.loudness input with
          | none => rw [process_video_encode_fail env fs _ _ _ hl] at h; cases h.2
          | some lp => rw [process_video_encode_args env fs _ _ _ lp hl] at h; cases h.2
        · rintro ⟨mo', hmo, hle⟩
          injection hmo with h
          subst h
          exact absurd hle hge
      · intro _
        rw [hpv]
        constructor
        · cases hl : env.loudness input with
          | none => rw [process_video_encode_fail env fs _ _ _ hl]; rfl
          | some lp => rw [process_video_encode_args env fs _ _ _ lp hl]; rfl
        · intro lp hl
          rw [process_video_encode_args env fs _ _ _ lp hl]
          exact ⟨_, rfl, rfl⟩

/-- Witness for C4: in the `fsC3` scenario the processed copy
(`videos/tmp/v-processed.mp4`, mtime 5) is at least as new as the input
(mtime 3), and `process_video` indeed skips with no effects. -/
theorem C4_process_video_skip_witness :
    (process_video envC3 fsC3 "videos/inputs/v.mp4" "T" "videos/tmp").ret
        = some ("videos/tmp" ++ "/" ++ processedName "videos/inputs/v.mp4" ".mp4")
    ∧ (process_video envC3 fsC3 "videos/inputs/v.mp4" "T" "videos/tmp").effects
        = [] := by
  exact (C4_process_video_skip envC3 fsC3 "videos/inputs/v.mp4" "T" "videos/tmp"
      3 (by decide)).1.mpr ⟨5, by decide, by decide⟩

/-- The three ways `process_video` can go: raise on `os.path.getmtime` of a
missing input while the output exists, skip, or fall through to the
probe-and-encode part. -/
theorem process_video_cases (env : Env) (fs : FS)
    (input title output_dir : String) :
    (process_video env fs input title output_dir = ⟨none, fs, []⟩)
    ∨ (process_video env fs input title output_dir
        = ⟨some (output_dir ++ "/" ++ processedName input ".mp4"), fs, []⟩)
    ∨ (process_video env fs input title output_dir
        = process_video_encode env fs input title
            (output_dir ++ "/" ++ processedName input ".mp4")) := by
  cases ho : fs.mtime (output_dir ++ "/" ++ processedName input ".mp4") with
  | none => exact Or.inr (Or.inr (by simp [process_video, ho]))
  | some mo =>
    cases hi : fs.mtime input with
    | none => exact Or.inl (by simp [process_video, ho, hi])
    | some mi =>
      by_cases hge : mo ≥ mi
      · exact Or.inr (Or.inl (by simp [process_video, ho, hi, hge]))
      · exact Or.inr (Or.inr (by simp [process_video, ho, hi, hge]))

/-- C5: whenever `process_video` issues its encode call, the loudnorm
parameters are derived from the probe result as follows: a silent file
(measured `input_i` is `-inf`) gets the sentinels `measured_I = -99`,
`measured_tp = -99`, `offset = 0`; a non-silent file keeps its measured
values with `input_i` clamped to at most 0; `input_lra` and `input_thresh`
are always passed as measured. -/
theorem C5_loudness_sentinels (env : Env) (fs : FS)
    (input title output_dir o ti : String) (a : LoudnormArgs)
    (lp : LoudnessParams) (hlp : env.loudness input = some lp)
    (henc : Effect.encode a ti input o
        ∈ (process_video env fs input title output_dir).effects) :
    (lp.input_i = FVal.negInf →
        a.measured_I = FVal.val (-99) ∧ a.measured_tp = FVal.val (-99)
          ∧ a.offset = FVal.val 0)
    ∧ (∀ q, lp.input_i = FVal.val q →
        a.measured_I = FVal.val (min q 0) ∧ a.measured_tp = lp.input_tp
          ∧ a.offset = lp.target_offset)
    ∧ a.measured_LRA = lp.input_lra ∧ a.measured_thresh = lp.input_thresh := by
  rcases process_video_cases env fs input title output_dir with hpv | hpv | hpv
  · rw [hpv] at henc; simp at henc
  · rw [hpv] at henc; simp at henc
  · rw [hpv, process_video_encode_args env fs _ _ _ lp hlp] at henc
    rcases List.mem_cons.mp henc with h | h
    · exact Effect.noConfusion h
    rcases List.mem_cons.mp h with h | h
    · injection h with h1 h2 h3 h4
      subst h1
      cases hI : lp.input_i with
      | negInf =>
        simp only [hI, FVal.min0, if_pos]
        exact ⟨fun _ => ⟨trivial, trivial, trivial⟩,
          fun q hq => FVal.noConfusion hq, trivial, trivial⟩
      | val q' =>
        have hcond : ¬ (FVal.min0 (FVal.val q') = FVal.negInf) := by
          intro h'
          exact FVal.noConfusion ((by rfl : FVal.min0 (FVal.val q')
            = FVal.val (min q' 0)).symm.trans h')
        simp only [hI, if_neg hcond]
        refine ⟨fun h' => FVal.noConfusion h', fun q hq => ?_, trivial, trivial⟩
        injection hq with hq'
        subst hq'
        exact ⟨rfl, trivial, trivial⟩
    · simp at h

/-- In the silent-file scenario, `process_video` performs exactly a probe
followed by one encode carrying the sentinel parameters `argsC6`. -/
theorem envC6_effects :
    (process_video envC6 fsC6 "videos/inputs/s.mp4" "T2" "videos/tmp").effects
      = [Effect.lprobe "videos/inputs/s.mp4",
         Effect.encode argsC6 (escape_ffmpeg_text "T2") "videos/inputs/s.mp4"
           "videos/tmp/s-processed.mp4"] := rfl

/-- Witness for C5 at the silent-file scenario: the encode call carries the
sentinel values. -/
theorem C5_loudness_sentinels_witness :
    argsC6.measured_I = FVal.val (-99) ∧ argsC6.measured_tp = FVal.val (-99)
      ∧ argsC6.offset = FVal.val 0 := by
  exact (C5_loudness_sentinels envC6 fsC6 "videos/inputs/s.mp4" "T2"
      "videos/tmp" "videos/tmp/s-processed.mp4" (escape_ffmpeg_text "T2")
      argsC6 lpC6 (by decide)
      (by rw [envC6_effects]
          exact List.mem_cons_of_mem _ (List.mem_cons_self _ _))).1 rfl

/-- C6, counterexample: the claim says the encode call receives exactly the
probe's measured values.  For the silent file `videos/inputs/s.mp4` the probe
measures `target_offset = 7`, yet the encode call's `offset` parameter is the
sentinel `0` (and `measured_I`/`measured_tp` are `-99`), so the claim as
stated is false. -/
theorem C6_counterexample :
    envC6.loudness "videos/inputs/s.mp4" = some lpC6
    ∧ lpC6.target_offset = FVal.val 7
    ∧ ¬ (∀ (a : LoudnormArgs) (ti o : String),
          Effect.encode a ti "videos/inputs/s.mp4" o
              ∈ (process_video envC6 fsC6 "videos/inputs/s.mp4" "T2"
                  "videos/tmp").effects →
            a.offset = lpC6.target_offset) := by
  refine ⟨by decide, by decide, fun hall => ?_⟩
  have h := hall argsC6 (escape_ffmpeg_text "T2") "videos/tmp/s-processed.mp4"
    (by rw [envC6_effects]
        exact List.mem_cons_of_mem _ (List.mem_cons_self _ _))
  exact absurd h (by decide)

/-- C6 (amended): for a non-skipped input whose probe succeeds,
`process_video` first runs the loudness probe and then issues exactly one
encode call whose loudnorm parameters are the probe's measured values after
the adjustments of the code: `input_lra` and `input_thresh` pass through
unchanged, `input_i` is clamped to at most 0, and a silent file
(`input_i = -inf`) gets the sentinels `-99`, `-99`, `0` for `measured_I`,
`measured_tp` and `offset`. -/
theorem C6_two_pass (env : Env) (fs : FS) (input title output_dir : String)
    (mi : Int) (lp : LoudnessParams)
    (hin : fs.mtime input = some mi)
    (hlp : env.loudness input = some lp)
    (hstale : ∀ mo, fs.mtime (output_dir ++ "/" ++ processedName input ".mp4")
        = some mo → mo < mi) :
    ∃ a, (process_video env fs input title output_dir).effects
        = [Effect.lprobe input,
           Effect.encode a (escape_ffmpeg_text title) input
             (output_dir ++ "/" ++ processedName input ".mp4")]
      ∧ (process_video env fs input title output_dir).ret
          = some (output_dir ++ "/" ++ processedName input ".mp4")
      ∧ a.measured_LRA = lp.input_lra ∧ a.measured_thresh = lp.input_thresh
      ∧ ((lp.input_i = FVal.negInf ∧ a.measured_I = FVal.val (-99)
            ∧ a.measured_tp = FVal.val (-99) ∧ a.offset = FVal.val 0)
         ∨ (∃ q, lp.input_i = FVal.val q ∧ a.measured_I = FVal.val (min q 0)
              ∧ a.measured_tp = lp.input_tp ∧ a.offset = lp.target_offset)) := by
  have hpv : process_video env fs input title output_dir
      = process_video_encode env fs input title
          (output_dir ++ "/" ++ processedName input ".mp4") := by
    cases ho : fs.mtime (output_dir ++ "/" ++ processedName input ".mp4") with
    | none => simp [process_video, ho]
    | some mo =>
      have hge : ¬ mo ≥ mi := not_le.mpr (hstale mo ho)
      simp [process_video, ho, hin, hge]
  rw [hpv, process_video_encode_args env fs _ _ _ lp hlp]
  cases hI : lp.input_i with
  | negInf => exact ⟨_, rfl, rfl, rfl, rfl, Or.inl ⟨rfl, rfl, rfl, rfl⟩⟩
  | val q => exact ⟨_, rfl, rfl, rfl, rfl, Or.inr ⟨q, rfl, rfl, rfl, rfl⟩⟩

/-- Witness for C6 at the silent-file scenario. -/
theorem C6_two_pass_witness :
    ∃ a, (process_video envC6 fsC6 "videos/inputs/s.mp4" "T2"
            "videos/tmp").effects
        = [Effect.lprobe "videos/inputs/s.mp4",
           Effect.encode a (escape_ffmpeg_text "T2") "videos/inputs/s.mp4"
             ("videos/tmp" ++ "/" ++ processedName "videos/inputs/s.mp4" ".mp4")]
      ∧ (process_video envC6 fsC6 "videos/inputs/s.mp4" "T2"
            "videos/tmp").ret
          = some ("videos/tmp" ++ "/" ++ processedName "videos/inputs/s.mp4" ".mp4")
      ∧ a.measured_LRA = lpC6.input_lra ∧ a.measured_thresh = lpC6.input_thresh
      ∧ ((lpC6.input_i = FVal.negInf ∧ a.measured_I = FVal.val (-99)
            ∧ a.measured_tp = FVal.val (-99) ∧ a.offset = FVal.val 0)
         ∨ (∃ q, lpC6.input_i = FVal.val q ∧ a.measured_I = FVal.val (min q 0)
              ∧ a.measured_tp = lpC6.input_tp ∧ a.offset = lpC6.target_offset)) := by
  exact C6_two_pass envC6 fsC6 "videos/inputs/s.mp4" "T2" "videos/tmp" 4 lpC6
    (by decide) (by decide)
    (fun mo h => Option.noConfusion
      ((by decide : fsC6.mtime ("videos/tmp" ++ "/"
          ++ processedName "videos/inputs/s.mp4" ".mp4") = none).symm.trans h))

/-- How one loop iteration changes the chapter list and the playhead: either
it fails somewhere and leaves both unchanged, or the item's duration probe
succeeded and exactly one chapter starting at the current playhead is
appended, with the playhead advancing one past its END tick. -/
theorem collate_step_chapters (env : Env) (tmp : String) (st : LoopState)
    (it : String × String) :
    ((collate_step env tmp st it).chapters = st.chapters
      ∧ (collate_step env tmp st it).playhead = st.playhead)
    ∨ (∃ ticks, env.durationMs it.1 = some ticks
        ∧ (collate_step env tmp st it).chapters
            = st.chapters ++ [⟨it.2, st.playhead, st.playhead + ticks⟩]
        ∧ (collate_step env tmp st it).playhead = st.playhead + ticks + 1) := by
  unfold collate_step
  dsimp only
  split
  · exact Or.inl ⟨rfl, rfl⟩
  · split
    · exact Or.inl ⟨rfl, rfl⟩
    · split
      · exact Or.inl ⟨rfl, rfl⟩
      · exact Or.inr ⟨_, (by assumption), rfl, rfl⟩

/-- The effect trace of one loop iteration is the previous trace followed by
the effects of that iteration's `process_video` call. -/
theorem collate_step_effects (env : Env) (tmp : String) (st : LoopState)
    (it : String × String) :
    (collate_step env tmp st it).effects
      = st.effects ++ (process_video env st.fs it.1 it.2 tmp).effects := by
  unfold collate_step
  dsimp only
  split
  · rfl
  · split
    · rfl
    · split
      · rfl
      · rfl

/-- Chapters accumulated by the loop, relative to an arbitrary starting
state: the new records form a chain continuing at the current playhead,
their titles are a subsequence of the items' titles, and each records the
duration of one of the items as `END - START`. -/
theorem collate_loop_chapters_aux (env : Env) (tmp : String) :
    ∀ (items : List (String × String)) (st : LoopState),
      ∃ tail,
        (items.foldl (collate_step env tmp) st).chapters = st.chapters ++ tail
        ∧ chainFrom st.playhead tail
        ∧ chainEnd st.playhead tail
            = (items.foldl (collate_step env tmp) st).playhead
        ∧ (tail.map Chapter.title).Sublist (items.map Prod.snd)
        ∧ ∀ ch ∈ tail, ∃ it ∈ items,
            ch.title = it.2 ∧ env.durationMs it.1 = some (ch.stop - ch.start) := by
  intro items
  induction items with
  | nil =>
    intro st
    exact ⟨[], by simp, trivial, rfl, by simp, by simp⟩
  | cons it rest ih =>
    intro st
    rcases collate_step_chapters env tmp st it with ⟨hc, hp⟩ |
        ⟨ticks, hd, hc, hp⟩ <;>
      obtain ⟨tail, h1, h2, h3, h4, h5⟩ := ih (collate_step env tmp st it)
    · refine ⟨tail, ?_, ?_, ?_, ?_, ?_⟩
      · rw [List.foldl_cons] at *
        rw [h1, hc]
      · rw [hp] at h2; exact h2
      · rw [hp] at h3
        rw [List.foldl_cons]
        exact h3
      · exact h4.cons it.2
      · intro ch hch
        obtain ⟨it', hit', hprop⟩ := h5 ch hch
        exact ⟨it', List.mem_cons_of_mem _ hit', hprop⟩
    · refine ⟨⟨it.2, st.playhead, st.playhead + ticks⟩ :: tail, ?_, ?_, ?_, ?_, ?_⟩
      · rw [List.foldl_cons, h1, hc, List.append_assoc]
        rfl
      · refine ⟨rfl, Nat.le_add_right _ _, ?_⟩
        rw [hp] at h2
        exact h2
      · show chainEnd _ tail = _
        rw [hp] at h3
        rw [List.foldl_cons]
        exact h3
      · exact h4.cons₂ it.2
      · intro ch hch
        rcases List.mem_cons.mp hch with hh | ht
        · subst hh
          refine ⟨it, List.mem_cons_self _ _, rfl, ?_⟩
          rw [hd]
          simp
        · obtain ⟨it', hit', hprop⟩ := h5 ch ht
          exact ⟨it', List.mem_cons_of_mem _ hit', hprop⟩

/-- A chain starting at `t` only holds chapters starting at `t` or later. -/
theorem chainFrom_le_start :
    ∀ (t : Nat) (l : List Chapter), chainFrom t l → ∀ b ∈ l, t ≤ b.start := by
  intro t l
  induction l generalizing t with
  | nil => intro _ b hb; cases hb
  | cons ch rest ih =>
    rintro ⟨hs, hle, hrest⟩ b hb
    rcases List.mem_cons.mp hb with hh | ht
    · subst hh; exact le_of_eq hs.symm
    · have := ih (ch.stop + 1) hrest b ht
      omega

/-- A chain's chapters are pairwise ordered with disjoint tick ranges: each
chapter ends strictly before any later one starts. -/
theorem chainFrom_pairwise :
    ∀ (t : Nat) (l : List Chapter), chainFrom t l →
      l.Pairwise (fun a b => a.stop < b.start) := by
  intro t l
  induction l generalizing t with
  | nil => intro _; exact List.Pairwise.nil
  | cons ch rest ih =>
    rintro ⟨hs, hle, hrest⟩
    refine List.Pairwise.cons ?_ (ih (ch.stop + 1) hrest)
    intro b hb
    have := chainFrom_le_start (ch.stop + 1) rest hrest b hb
    omega

/-- Every effect of a `process_video` call targeting `tmp` as output
directory is a loudness probe or an encode into the tmp directory. -/
theorem process_video_effects_ok (env : Env) (fs : FS) (i t tmp : String) :
    ∀ e ∈ (process_video env fs i t tmp).effects, loopEffect tmp e := by
  rcases process_video_cases env fs i t tmp with hpv | hpv | hpv <;> rw [hpv]
  · intro e he; cases he
  · intro e he; cases he
  · cases hl : env.loudness i with
    | none =>
      rw [process_video_encode_fail env fs _ _ _ hl]
      intro e he
      rcases List.mem_cons.mp he with hh | ht
      · exact Or.inl ⟨i, hh⟩
      · cases ht
    | some lp =>
      rw [process_video_encode_args env fs _ _ _ lp hl]
      intro e he
      rcases List.mem_cons.mp he with hh | ht
      · exact Or.inl ⟨i, hh⟩
      rcases List.mem_cons.mp ht with hh | ht
      · exact Or.inr ⟨_, _, _, processedName i ".mp4", hh⟩
      · cases ht

/-- All effects the collate loop accumulates are loudness probes or encodes
into the tmp directory. -/
theorem collate_loop_effects_ok (env : Env) (tmp : String) :
    ∀ (items : List (String × String)) (st : LoopState),
      (∀ e ∈ st.effects, loopEffect tmp e) →
      ∀ e ∈ (items.foldl (collate_step env tmp) st).effects, loopEffect tmp e := by
  intro items
  induction items with
  | nil => intro st h; exact h
  | cons it rest ih =>
    intro st h
    rw [List.foldl_cons]
    refine ih (collate_step env tmp st it) ?_
    rw [collate_step_effects]
    intro e he
    rcases List.mem_append.mp he with hl | hr
    · exact h e hl
    · exact process_video_effects_ok env st.fs it.1 it.2 tmp e hr

/-- A loop effect is never the concat render nor the rename. -/
theorem loopEffect_not_concat_rename (tmp : String) (e : Effect)
    (h : loopEffect tmp e) :
    isConcatEffect e = false ∧ isRenameEffect e = false := by
  rcases h with ⟨i, rfl⟩ | ⟨a, t, i, s, rfl⟩ <;> exact ⟨rfl, rfl⟩

/-- A loop effect only ever creates a file inside the tmp directory. -/
theorem loopEffect_creates (tmp : String) (e : Effect) (h : loopEffect tmp e) :
    ∀ p, effectCreates e = some p → ∃ s, p = tmp ++ "/" ++ s := by
  rcases h with ⟨i, rfl⟩ | ⟨a, t, i, s, rfl⟩
  · intro p hp; cases hp
  · intro p hp
    injection hp with hp'
    exact ⟨s, hp'.symm⟩

/-- The chapter list `collate_videos` reports is the one its loop built. -/
theorem collate_videos_chapters (env : Env) (fs : FS)
    (items : List (String × String)) (ft tmp outd : String) :
    (collate_videos env fs items ft tmp outd).chapters
      = (collate_loop env tmp fs items).chapters := by
  unfold collate_videos
  dsimp only
  split
  · rfl
  · split
    · rfl
    · split <;> rfl

/-- The processed list `collate_videos` reports is the one its loop built. -/
theorem collate_videos_processed (env : Env) (fs : FS)
    (items : List (String × String)) (ft tmp outd : String) :
    (collate_videos env fs items ft tmp outd).processed
      = (collate_loop env tmp fs items).processed := by
  unfold collate_videos
  dsimp only
  split
  · rfl
  · split
    · rfl
    · split <;> rfl

/-- The `max_input_mtime` value `collate_videos` reports is the one its loop
built. -/
theorem collate_videos_maxMtime (env : Env) (fs : FS)
    (items : List (String × String)) (ft tmp outd : String) :
    (collate_videos env fs items ft tmp outd).maxMtime
      = (collate_loop env tmp fs items).maxMtime := by
  unfold collate_videos
  dsimp only
  split
  · rfl
  · split
    · rfl
    · split <;> rfl

/-- The four ways `collate_videos` can go after its loop: nothing processed
(return `None`), fresh output (return it untouched), concat render whose
temp file is missing (`os.rename` raises), or successful render and
rename. -/
theorem collate_videos_cases (env : Env) (fs : FS)
    (items : List (String × String)) (ft tmp outd : String) :
    ((collate_loop env tmp fs items).processed = []
      ∧ collate_videos env fs items ft tmp outd
        = ⟨CRet.returned none,
           (collate_loop env tmp fs items).fs.update
             (tmp ++ "/" ++ (ft ++ "-metadata.ini")) (some env.now),
           (collate_loop env tmp fs items).effects
             ++ [Effect.write (tmp ++ "/" ++ (ft ++ "-metadata.ini"))
                  (String.join ((collate_loop env tmp fs items).chapters.map
                    renderChapter))],
           (collate_loop env tmp fs items).chapters,
           (collate_loop env tmp fs items).processed,
           (collate_loop env tmp fs items).maxMtime⟩)
    ∨ ((collate_loop env tmp fs items).processed ≠ []
      ∧ freshCheck ((collate_loop env tmp fs items).fs.update
            (tmp ++ "/" ++ (ft ++ "-metadata.ini")) (some env.now))
          (outd ++ "/" ++ (ft ++ ".mp4"))
          (collate_loop env tmp fs items).maxMtime = true
      ∧ collate_videos env fs items ft tmp outd
        = ⟨CRet.returned (some (outd ++ "/" ++ (ft ++ ".mp4"))),
           (collate_loop env tmp fs items).fs.update
             (tmp ++ "/" ++ (ft ++ "-metadata.ini")) (some env.now),
           (collate_loop env tmp fs items).effects
             ++ [Effect.write (tmp ++ "/" ++ (ft ++ "-metadata.ini"))
                  (String.join ((collate_loop env tmp fs items).chapters.map
                    renderChapter))],
           (collate_loop env tmp fs items).chapters,
           (collate_loop env tmp fs items).processed,
           (collate_loop env tmp fs items).maxMtime⟩)
    ∨ ((collate_loop env tmp fs items).processed ≠ []
      ∧ freshCheck ((collate_loop env tmp fs items).fs.update
            (tmp ++ "/" ++ (ft ++ "-metadata.ini")) (some env.now))
          (outd ++ "/" ++ (ft ++ ".mp4"))
          (collate_loop env tmp fs items).maxMtime = false
      ∧ env.concatMtime (tmp ++ "/" ++ (ft ++ ".mp4")) = none
      ∧ collate_videos env fs items ft tmp outd
        = ⟨CRet.raised,
           ((collate_loop env tmp fs items).fs.update
             (tmp ++ "/" ++ (ft ++ "-metadata.ini")) (some env.now)).update
               (tmp ++ "/" ++ (ft ++ ".mp4")) none,
           ((collate_loop env tmp fs items).effects
             ++ [Effect.write (tmp ++ "/" ++ (ft ++ "-metadata.ini"))
                  (String.join ((collate_loop env tmp fs items).chapters.map
                    renderChapter))])
             ++ [Effect.concat (collate_loop env tmp fs items).processed
                  (tmp ++ "/" ++ (ft ++ "-metadata.ini"))
                  (tmp ++ "/" ++ (ft ++ ".mp4"))],
           (collate_loop env tmp fs items).chapters,
           (collate_loop env tmp fs items).processed,
           (collate_loop env tmp fs items).maxMtime⟩)
    ∨ (∃ mt, (collate_loop env tmp fs items).processed ≠ []
      ∧ freshCheck ((collate_loop env tmp fs items).fs.update
            (tmp ++ "/" ++ (ft ++ "-metadata.ini")) (some env.now))
          (outd ++ "/" ++ (ft ++ ".mp4"))
          (collate_loop env tmp fs items).maxMtime = false
      ∧ env.concatMtime (tmp ++ "/" ++ (ft ++ ".mp4")) = some mt
      ∧ collate_videos env fs items ft tmp outd
        = ⟨CRet.returned (some (outd ++ "/" ++ (ft ++ ".mp4"))),
           ((((collate_loop env tmp fs items).fs.update
               (tmp ++ "/" ++ (ft ++ "-metadata.ini")) (some env.now)).update
                 (tmp ++ "/" ++ (ft ++ ".mp4")) (some mt)).update
                   (outd ++ "/" ++ (ft ++ ".mp4")) (some mt)).update
                     (tmp ++ "/" ++ (ft ++ ".mp4")) none,
           (((collate_loop env tmp fs items).effects
             ++ [Effect.write (tmp ++ "/" ++ (ft ++ "-metadata.ini"))
                  (String.join ((collate_loop env tmp fs items).chapters.map
                    renderChapter))])
             ++ [Effect.concat (collate_loop env tmp fs items).processed
                  (tmp ++ "/" ++ (ft ++ "-metadata.ini"))
                  (tmp ++ "/" ++ (ft ++ ".mp4"))])
             ++ [Effect.rename (tmp ++ "/" ++ (ft ++ ".mp4"))
                  (outd ++ "/" ++ (ft ++ ".mp4"))],
           (collate_loop env tmp fs items).chapters,
           (collate_loop env tmp fs items).processed,
           (collate_loop env tmp fs items).maxMtime⟩) := by
  by_cases hp : (collate_loop env tmp fs items).processed = []
  · left
    refine ⟨hp, ?_⟩
    unfold collate_videos
    dsimp only
    rw [if_pos hp]
  · by_cases hf : freshCheck ((collate_loop env tmp fs items).fs.update
        (tmp ++ "/" ++ (ft ++ "-metadata.ini")) (some env.now))
        (outd ++ "/" ++ (ft ++ ".mp4"))
        (collate_loop env tmp fs items).maxMtime = true
    · right; left
      refine ⟨hp, hf, ?_⟩
      unfold collate_videos
      dsimp only
      rw [if_neg hp, if_pos hf]
    · have hf' : freshCheck ((collate_loop env tmp fs items).fs.update
          (tmp ++ "/" ++ (ft ++ "-metadata.ini")) (some env.now))
          (outd ++ "/" ++ (ft ++ ".mp4"))
          (collate_loop env tmp fs items).maxMtime = false :=
        Bool.not_eq_true _ ▸ eq_false_of_ne_true hf
      cases hcm : env.concatMtime (tmp ++ "/" ++ (ft ++ ".mp4")) with
      | none =>
        right; right; left
        refine ⟨hp, hf', rfl, ?_⟩
        unfold collate_videos
        dsimp only
        rw [if_neg hp, if_neg hf, hcm]
      | some mt =>
        right; right; right
        refine ⟨mt, hp, hf', rfl, ?_⟩
        unfold collate_videos
        dsimp only
        rw [if_neg hp, if_neg hf, hcm]

/-- C7: the chapter metadata built by `collate_videos` lists one
(title, START, END) record per handled item, in input-list order (the
record titles form a subsequence of the item titles): the first record
starts at tick 0, every record's END is its START plus the probed duration
of its item in milliseconds (`END - START` equals the probed duration),
each later record starts one tick past the previous END (`chainFrom`), and
consequently the tick ranges are ordered and pairwise disjoint.  The
1/1000 timebase is part of every rendered record (`renderChapter`). -/
theorem C7_chapter_structure (env : Env) (fs : FS)
    (items : List (String × String)) (ft tmp outd : String) :
    chainFrom 0 (collate_videos env fs items ft tmp outd).chapters
    ∧ (collate_videos env fs items ft tmp outd).chapters.Pairwise
        (fun a b => a.stop < b.start)
    ∧ ((collate_videos env fs items ft tmp outd).chapters.map
        Chapter.title).Sublist (items.map Prod.snd)
    ∧ ∀ ch ∈ (collate_videos env fs items ft tmp outd).chapters,
        ∃ it ∈ items, ch.title = it.2
          ∧ env.durationMs it.1 = some (ch.stop - ch.start) := by
  rw [collate_videos_chapters]
  obtain ⟨tail, h1, h2, h3, h4, h5⟩ :=
    collate_loop_chapters_aux env tmp items (collate_init fs)
  have hc : (collate_loop env tmp fs items).chapters = tail := by
    simpa [collate_loop, collate_init] using h1
  rw [hc]
  exact ⟨h2, chainFrom_pairwise 0 tail h2, h4, h5⟩

/-- Witness for C7 at the `fsC3` scenario: the single handled item yields
the single chapter record `(T, 0, 1000)`, whose `END - START` is the item's
probed duration. -/
theorem C7_chapter_structure_witness :
    (collate_videos envC3 fsC3 itemsC3 "video_S" "videos/tmp"
        "videos/output").chapters = [⟨"T", 0, 1000⟩]
    ∧ ∃ it ∈ itemsC3, (Chapter.mk "T" 0 1000).title = it.2
        ∧ envC3.durationMs it.1
            = some ((Chapter.mk "T" 0 1000).stop - (Chapter.mk "T" 0 1000).start) := by
  have h := C7_chapter_structure envC3 fsC3 itemsC3 "video_S" "videos/tmp"
    "videos/output"
  have hc : (collate_videos envC3 fsC3 itemsC3 "video_S" "videos/tmp"
      "videos/output").chapters = [⟨"T", 0, 1000⟩] := by decide
  refine ⟨hc, h.2.2.2 ⟨"T", 0, 1000⟩ ?_⟩
  rw [hc]
  exact List.mem_cons_self _ _

/-- C3, counterexample: the claim says the group output is reused only if it
is strictly newer than the latest processed-input mtime.  In the `fsC3`
scenario the output file's mtime (5) equals the latest processed mtime (5) —
it is not newer — yet `collate_videos` skips the render and returns the
existing path. -/
theorem C3_freshness_counterexample :
    (collate_videos envC3 fsC3 itemsC3 "video_S" "videos/tmp"
        "videos/output").result
      = CRet.returned (some "videos/output/video_S.mp4")
    ∧ (collate_videos envC3 fsC3 itemsC3 "video_S" "videos/tmp"
        "videos/output").effects.any isConcatEffect = false
    ∧ (collate_videos envC3 fsC3 itemsC3 "video_S" "videos/tmp"
        "videos/output").maxMtime = 5
    ∧ fsC3.mtime "videos/output/video_S.mp4" = some 5
    ∧ ¬ ((collate_videos envC3 fsC3 itemsC3 "video_S" "videos/tmp"
          "videos/output").maxMtime < 5) := by
  exact ⟨by decide, by decide, by decide, by decide, by decide⟩

/-- C3 (amended): once at least one item was processed, `collate_videos`
reuses the existing group output (returns the final path without running the
concat render) if and only if the output file exists and its modification
time is at least — not strictly greater than — the latest modification time
among the group's processed files (`freshCheck` is the source's
`output_path.exists() and getmtime(output_path) >= max_input_mtime`). -/
theorem C3_collate_skip_iff (env : Env) (fs : FS)
    (items : List (String × String)) (ft tmp outd : String)
    (hne : (collate_videos env fs items ft tmp outd).processed ≠ []) :
    ((collate_videos env fs items ft tmp outd).result
        = CRet.returned (some (outd ++ "/" ++ (ft ++ ".mp4")))
      ∧ (collate_videos env fs items ft tmp outd).effects.any isConcatEffect
          = false)
    ↔ freshCheck ((collate_loop env tmp fs items).fs.update
          (tmp ++ "/" ++ (ft ++ "-metadata.ini")) (some env.now))
        (outd ++ "/" ++ (ft ++ ".mp4"))
        (collate_loop env tmp fs items).maxMtime = true := by
  rw [collate_videos_processed] at hne
  have hnoc : ∀ e ∈ (collate_loop env tmp fs items).effects,
      isConcatEffect e = false := by
    intro e he
    exact (loopEffect_not_concat_rename tmp e
      (collate_loop_effects_ok env tmp items (collate_init fs)
        (by intro e' he'; cases he') e he)).1
  rcases collate_videos_cases env fs items ft tmp outd with
    ⟨hp, _⟩ | ⟨hp, hf, heq⟩ | ⟨hp, hf, hcm, heq⟩ | ⟨mt, hp, hf, hcm, heq⟩
  · exact absurd hp hne
  · rw [heq]
    constructor
    · intro _; exact hf
    · intro _
      refine ⟨rfl, ?_⟩
      rw [List.any_eq_false]
      intro e he
      rcases List.mem_append.mp he with hl | hr
      · simp [hnoc e hl]
      · rw [List.mem_singleton] at hr
        subst hr
        simp [isConcatEffect]
  · rw [heq]
    constructor
    · rintro ⟨h1, _⟩; exact CRet.noConfusion h1
    · intro h; exact Bool.noConfusion (hf.symm.trans h)
  · rw [heq]
    constructor
    · rintro ⟨_, h2⟩
      exfalso
      rw [List.any_eq_false] at h2
      have hmem : Effect.concat (collate_loop env tmp fs items).processed
          (tmp ++ "/" ++ (ft ++ "-metadata.ini")) (tmp ++ "/" ++ (ft ++ ".mp4"))
          ∈ (((collate_loop env tmp fs items).effects
             ++ [Effect.write (tmp ++ "/" ++ (ft ++ "-metadata.ini"))
                  (String.join ((collate_loop env tmp fs items).chapters.map
                    renderChapter))])
             ++ [Effect.concat (collate_loop env tmp fs items).processed
                  (tmp ++ "/" ++ (ft ++ "-metadata.ini"))
                  (tmp ++ "/" ++ (ft ++ ".mp4"))])
             ++ [Effect.rename (tmp ++ "/" ++ (ft ++ ".mp4"))
                  (outd ++ "/" ++ (ft ++ ".mp4"))] :=
        List.mem_append.mpr (Or.inl (List.mem_append.mpr
          (Or.inr (List.mem_singleton.mpr rfl))))
      exact (h2 _ hmem) rfl
    · intro h; exact Bool.noConfusion (hf.symm.trans h)

/-- Witness for C3 (amended) at the `fsC3` scenario: the freshness check
passes with equal mtimes and the call indeed reuses the existing output. -/
theorem C3_collate_skip_iff_witness :
    (collate_videos envC3 fsC3 itemsC3 "video_S" "videos/tmp"
        "videos/output").result
      = CRet.returned (some ("videos/output" ++ "/" ++ ("video_S" ++ ".mp4")))
    ∧ (collate_videos envC3 fsC3 itemsC3 "video_S" "videos/tmp"
        "videos/output").effects.any isConcatEffect = false := by
  exact (C3_collate_skip_iff envC3 fsC3 itemsC3 "video_S" "videos/tmp"
    "videos/output" (by decide)).mpr (by decide)

/-- After the loop, the trace "loop effects plus the metadata write" holds no
concat effect. -/
theorem loop_write_no_concat (env : Env) (tmp : String)
    (items : List (String × String)) (fs : FS) (mdp content : String) :
    ((collate_loop env tmp fs items).effects
      ++ [Effect.write mdp content]).any isConcatEffect = false := by
  rw [List.any_eq_false]
  intro e he
  rcases List.mem_append.mp he with hl | hrr
  · simp [(loopEffect_not_concat_rename tmp e
      (collate_loop_effects_ok env tmp items (collate_init fs)
        (by intro e' he'; cases he') e hl)).1]
  · rw [List.mem_singleton] at hrr
    subst hrr
    simp [isConcatEffect]

/-- C9: `collate_videos` returns `None` exactly when its `processed` list
stayed empty (no item was successfully handled); the chapter-metadata side
file is written into the tmp directory on every call (even when the chapter
list is empty); and in the aborting case no concat render and no rename
happen, and every file-creating effect targets the tmp directory — nothing
is created in the output directory. -/
theorem C9_abort_behaviour (env : Env) (fs : FS)
    (items : List (String × String)) (ft tmp outd : String) :
    ((collate_videos env fs items ft tmp outd).result = CRet.returned none
      ↔ (collate_videos env fs items ft tmp outd).processed = [])
    ∧ Effect.write (tmp ++ "/" ++ (ft ++ "-metadata.ini"))
        (String.join ((collate_videos env fs items ft tmp outd).chapters.map
          renderChapter))
        ∈ (collate_videos env fs items ft tmp outd).effects
    ∧ ((collate_videos env fs items ft tmp outd).processed = [] →
        ∀ e ∈ (collate_videos env fs items ft tmp outd).effects,
          isConcatEffect e = false ∧ isRenameEffect e = false
          ∧ ∀ p, effectCreates e = some p → ∃ s, p = tmp ++ "/" ++ s) := by
  have hok : ∀ e ∈ (collate_loop env tmp fs items).effects, loopEffect tmp e :=
    collate_loop_effects_ok env tmp items (collate_init fs)
      (by intro e' he'; cases he')
  rcases collate_videos_cases env fs items ft tmp outd with
    ⟨hp, heq⟩ | ⟨hp, hf, heq⟩ | ⟨hp, hf, hcm, heq⟩ | ⟨mt, hp, hf, hcm, heq⟩ <;>
    rw [heq]
  · refine ⟨⟨fun _ => hp, fun _ => rfl⟩, ?_, ?_⟩
    · exact List.mem_append.mpr (Or.inr (List.mem_singleton.mpr (by rw [hp])))
    · intro _ e he
      rcases List.mem_append.mp he with hl | hrr
      · obtain ⟨h1, h2⟩ := loopEffect_not_concat_rename tmp e (hok e hl)
        exact ⟨h1, h2, loopEffect_creates tmp e (hok e hl)⟩
      · rw [List.mem_singleton] at hrr
        subst hrr
        refine ⟨rfl, rfl, fun p hp' => ?_⟩
        injection hp' with hp''
        exact ⟨ft ++ "-metadata.ini", hp''.symm⟩
  · refine ⟨?_, ?_, fun habs => absurd habs hp⟩
    · constructor
      · intro h; injection h with h'; exact Option.noConfusion h'
      · intro h; exact absurd h hp
    · exact List.mem_append.mpr (Or.inr (List.mem_singleton.mpr rfl))
  · refine ⟨?_, ?_, fun habs => absurd habs hp⟩
    · constructor
      · intro h; exact CRet.noConfusion h
      · intro h; exact absurd h hp
    · exact List.mem_append.mpr (Or.inl
        (List.mem_append.mpr (Or.inr (List.mem_singleton.mpr rfl))))
  · refine ⟨?_, ?_, fun habs => absurd habs hp⟩
    · constructor
      · intro h; injection h with h'; exact Option.noConfusion h'
      · intro h; exact absurd h hp
    · exact List.mem_append.mpr (Or.inl (List.mem_append.mpr (Or.inl
        (List.mem_append.mpr (Or.inr (List.mem_singleton.mpr rfl))))))

/-- Witness for C9: with everything handled (the `fsC3` scenario) the
metadata write effect is present and the abort implication's hypothesis is
refutable, while on an empty item list the call returns `None` with an empty
`processed` list and the (empty) metadata file still written. -/
theorem C9_abort_behaviour_witness :
    (collate_videos envC3 fsC3 [] "video_S" "videos/tmp"
        "videos/output").result = CRet.returned none
    ∧ Effect.write ("videos/tmp" ++ "/" ++ ("video_S" ++ "-metadata.ini"))
        (String.join ((collate_videos envC3 fsC3 [] "video_S" "videos/tmp"
          "videos/output").chapters.map renderChapter))
        ∈ (collate_videos envC3 fsC3 [] "video_S" "videos/tmp"
            "videos/output").effects
    ∧ ∀ e ∈ (collate_videos envC3 fsC3 [] "video_S" "videos/tmp"
        "videos/output").effects,
        isConcatEffect e = false ∧ isRenameEffect e = false
          ∧ ∀ p, effectCreates e = some p
              → ∃ s, p = "videos/tmp" ++ "/" ++ s := by
  have h := C9_abort_behaviour envC3 fsC3 [] "video_S" "videos/tmp"
    "videos/output"
  refine ⟨h.1.mpr (by decide), h.2.1, h.2.2 (by decide)⟩

/-- C10: when `collate_videos` actually renders (a concat effect occurs),
the concat run writes only to the temp path inside the tmp directory; the
only effect that ever creates the final output path is the rename from that
temp path; and when the call returns the output path after rendering, its
trace ends with the concat into the tmp directory immediately followed by
the rename onto the final path. -/
theorem C10_render_via_tmp (env : Env) (fs : FS)
    (items : List (String × String)) (ft tmp outd : String)
    (hr : (collate_videos env fs items ft tmp
        outd).effects.any isConcatEffect = true) :
    (∀ pr md o, Effect.concat pr md o
        ∈ (collate_videos env fs items ft tmp outd).effects →
        pr = (collate_videos env fs items ft tmp outd).processed
        ∧ md = tmp ++ "/" ++ (ft ++ "-metadata.ini")
        ∧ o = tmp ++ "/" ++ (ft ++ ".mp4"))
    ∧ (∀ s d, Effect.rename s d
        ∈ (collate_videos env fs items ft tmp outd).effects →
        s = tmp ++ "/" ++ (ft ++ ".mp4") ∧ d = outd ++ "/" ++ (ft ++ ".mp4"))
    ∧ (∀ e ∈ (collate_videos env fs items ft tmp outd).effects,
        ∀ p, effectCreates e = some p →
          (∃ s, p = tmp ++ "/" ++ s)
          ∨ e = Effect.rename (tmp ++ "/" ++ (ft ++ ".mp4"))
              (outd ++ "/" ++ (ft ++ ".mp4")))
    ∧ ((collate_videos env fs items ft tmp outd).result
          = CRet.returned (some (outd ++ "/" ++ (ft ++ ".mp4"))) →
        ∃ l, (collate_videos env fs items ft tmp outd).effects
          = l ++ [Effect.concat
                    (collate_videos env fs items ft tmp outd).processed
                    (tmp ++ "/" ++ (ft ++ "-metadata.ini"))
                    (tmp ++ "/" ++ (ft ++ ".mp4")),
                  Effect.rename (tmp ++ "/" ++ (ft ++ ".mp4"))
                    (outd ++ "/" ++ (ft ++ ".mp4"))]) := by
  have hok : ∀ e ∈ (collate_loop env tmp fs items).effects, loopEffect tmp e :=
    collate_loop_effects_ok env tmp items (collate_init fs)
      (by intro e' he'; cases he')
  rcases collate_videos_cases env fs items ft tmp outd with
    ⟨hp, heq⟩ | ⟨hp, hf, heq⟩ | ⟨hp, hf, hcm, heq⟩ | ⟨mt, hp, hf, hcm, heq⟩
  · rw [heq] at hr
    exact absurd hr (by
      rw [loop_write_no_concat env tmp items fs]
      exact fun h => Bool.noConfusion h)
  · rw [heq] at hr
    exact absurd hr (by
      rw [loop_write_no_concat env tmp items fs]
      exact fun h => Bool.noConfusion h)
  · rw [heq]
    refine ⟨?_, ?_, ?_, ?_⟩
    · intro pr md o hmem
      rcases List.mem_append.mp hmem with hl | hrr
      · rcases List.mem_append.mp hl with hll | hlw
        · rcases hok _ hll with ⟨i, hii⟩ | ⟨a, t, i, s, hii⟩ <;>
            exact Effect.noConfusion hii
        · rw [List.mem_singleton] at hlw
          exact Effect.noConfusion hlw
      · rw [List.mem_singleton] at hrr
        injection hrr with h1 h2 h3
        exact ⟨h1, h2, h3⟩
    · intro s d hmem
      rcases List.mem_append.mp hmem with hl | hrr
      · rcases List.mem_append.mp hl with hll | hlw
        · rcases hok _ hll with ⟨i, hii⟩ | ⟨a, t, i, s', hii⟩ <;>
            exact Effect.noConfusion hii
        · rw [List.mem_singleton] at hlw
          exact Effect.noConfusion hlw
      · rw [List.mem_singleton] at hrr
        exact Effect.noConfusion hrr
    · intro e he p hcp
      rcases List.mem_append.mp he with hl | hrr
      · rcases List.mem_append.mp hl with hll | hlw
        · exact Or.inl (loopEffect_creates tmp e (hok e hll) p hcp)
        · rw [List.mem_singleton] at hlw
          subst hlw
          injection hcp with hcp'
          exact Or.inl ⟨ft ++ "-metadata.ini", hcp'.symm⟩
      · rw [List.mem_singleton] at hrr
        subst hrr
        injection hcp with hcp'
        exact Or.inl ⟨ft ++ ".mp4", hcp'.symm⟩
    · intro hres
      exact CRet.noConfusion hres
  · rw [heq]
    refine ⟨?_, ?_, ?_, ?_⟩
    · intro pr md o hmem
      rcases List.mem_append.mp hmem with hl | hrr
      · rcases List.mem_append.mp hl with hll | hlc
        · rcases List.mem_append.mp hll with hlll | hlw
          · rcases hok _ hlll with ⟨i, hii⟩ | ⟨a, t, i, s, hii⟩ <;>
              exact Effect.noConfusion hii
          · rw [List.mem_singleton] at hlw
            exact Effect.noConfusion hlw
        · rw [List.mem_singleton] at hlc
          injection hlc with h1 h2 h3
          exact ⟨h1, h2, h3⟩
      · rw [List.mem_singleton] at hrr
        exact Effect.noConfusion hrr
    · intro s d hmem
      rcases List.mem_append.mp hmem with hl | hrr
      · rcases List.mem_append.mp hl with hll | hlc
        · rcases List.mem_append.mp hll with hlll | hlw
          · rcases hok _ hlll with ⟨i, hii⟩ | ⟨a, t, i, s', hii⟩ <;>
              exact Effect.noConfusion hii
          · rw [List.mem_singleton] at hlw
            exact Effect.noConfusion hlw
        · rw [List.mem_singleton] at hlc
          exact Effect.noConfusion hlc
      · rw [List.mem_singleton] at hrr
        injection hrr with h1 h2
        exact ⟨h1, h2⟩
    · intro e he p hcp
      rcases List.mem_append.mp he with hl | hrr
      · rcases List.mem_append.mp hl with hll | hlc
        · rcases List.mem_append.mp hll with hlll | hlw
          · exact Or.inl (loopEffect_creates tmp e (hok e hlll) p hcp)
          · rw [List.mem_singleton] at hlw
            subst hlw
            injection hcp with hcp'
            exact Or.inl ⟨ft ++ "-metadata.ini", hcp'.symm⟩
        · rw [List.mem_singleton] at hlc
          subst hlc
          injection hcp with hcp'
          exact Or.inl ⟨ft ++ ".mp4", hcp'.symm⟩
      · rw [List.mem_singleton] at hrr
        subst hrr
        exact Or.inr rfl
    · intro _
      refine ⟨(collate_loop env tmp fs items).effects
        ++ [Effect.write (tmp ++ "/" ++ (ft ++ "-metadata.ini"))
             (String.join ((collate_loop env tmp fs items).chapters.map
               renderChapter))], ?_⟩
      rw [List.append_assoc]
      rfl

/-- Witness for C10 at the `fsC10` scenario (missing group output forces a
render): the trace ends with the concat into the tmp directory followed by
the rename onto the final output path. -/
theorem C10_render_via_tmp_witness :
    ∃ l, (collate_videos envC10 fsC10 itemsC3 "video_S" "videos/tmp"
        "videos/output").effects
      = l ++ [Effect.concat ["videos/tmp/v-processed.mp4"]
                ("videos/tmp" ++ "/" ++ ("video_S" ++ "-metadata.ini"))
                ("videos/tmp" ++ "/" ++ ("video_S" ++ ".mp4")),
              Effect.rename ("videos/tmp" ++ "/" ++ ("video_S" ++ ".mp4"))
                ("videos/output" ++ "/" ++ ("video_S" ++ ".mp4"))] := by
  have h := C10_render_via_tmp envC10 fsC10 itemsC3 "video_S" "videos/tmp"
    "videos/output" (by decide)
  have hres := h.2.2.2 (by decide)
  have hp : (collate_videos envC10 fsC10 itemsC3 "video_S" "videos/tmp"
      "videos/output").processed = ["videos/tmp/v-processed.mp4"] := by decide
  rw [hp] at hres
  exact hres
